import Mathlib

/-!
A verification development for the `xmlparser` pipeline
(`src/xmlparser.py`, classes `AbstractParser` / `AbstractDjangoParser`).

The Python code is shallowly embedded: every pipeline stage becomes a pure
Lean function over explicit data, and every Python exception that a stage may
raise becomes an explicit error value in an `Except` result.  Values that flow
through the pipeline (keyword arguments, raw data, handled data, model
parameters) are modelled by the inductive `Value`; an element tree node is
modelled by `Node`, whose `find` field abstracts ElementTree's relative-path
lookup (tree-access mechanics are an external collaborator of the parser, the
parser only ever calls `find`, `.text` and `.attrib.get`; in particular the
embedding makes it evident that a parse only reads the tree and never mutates
it).
-/

namespace XmlParser

/-- A dynamic value flowing through the parser: Python `None`, a string,
a 2-tuple, or an opaque (numeric) external value. -/
inductive Value where
  | vnone : Value
  | str : String → Value
  | pair : Value → Value → Value
  | nat : Nat → Value
  deriving DecidableEq, Repr

/-- An element-tree node: optional text content, an attribute dictionary, and
ElementTree's `find`, looking up a first descendant by relative path (modelled
as an opaque function, the code never inspects paths itself). -/
inductive Node where
  | mk : Option String → List (String × String) → (String → Option Node) → Node

/-- `tag.text` -/
def Node.text : Node → Option String
  | .mk t _ _ => t

/-- `tag.attrib` -/
def Node.attrib : Node → List (String × String)
  | .mk _ a _ => a

/-- `root.find(rel_path)` (ElementTree lookup, external collaborator). -/
def Node.find : Node → String → Option Node
  | .mk _ _ f => f

/-- Exceptions a user-supplied handler / deriver / validator may raise.
`ValidationFail` is the parser's own `ValueError` subclass; `keyError` is a
Python `KeyError` raised inside user code; `other` is any other exception. -/
inductive UserErr where
  | validationFail : String → UserErr
  | keyError : String → UserErr
  | other : String → UserErr
  deriving DecidableEq, Repr

/-- Payload of `OddArguments`: either an unknown supplied key or the set of
declared names left over after removing all supplied keys. -/
inductive ArgErr where
  | unknown : String → ArgErr
  | missing : List String → ArgErr
  deriving DecidableEq, Repr

/-- Exceptions that may escape a parse (`AbstractParser.__init__`). -/
inductive ParseError where
  | oddArguments : ArgErr → ParseError
  | oddPath : ParseError
  | oddFromFunc : String → String → ParseError
  | keyError : String → ParseError
  | attributeError : ParseError
  | typeError : ParseError
  | user : UserErr → ParseError
  deriving DecidableEq, Repr

/-- A static method of the parser class, as found by
`inspect.getmembers(cls, inspect.isfunction)`: its positional-argument names
(`inspect.getfullargspec(f)[0]`) and the function itself, called positionally
on a list of values. -/
structure PyFunc where
  args : List String
  fn : List Value → Except UserErr Value

/-- The class-level declaration of a parser subclass: the optional declared
sets (`hasattr` probing makes absence observable), and the static-method
dictionary keyed by method name. -/
structure Schema where
  declared_data : Option (List String)
  declared_internal_data : Option (List String)
  internal_attr_data : List String
  external_data : List String
  declared_model_params : Option (List String)
  methods : String → Option PyFunc

/-- Association-list lookup, the embedding of a Python dict read
(`d[k]` / `d.get(k)`); keys of a dict are unique. -/
def lookup (m : List (String × Value)) (k : String) : Option Value :=
  match m with
  | [] => none
  | (k', v) :: rest => if k' = k then some v else lookup rest k

/-- `AbstractParser.__find_tag`: the root itself for the empty path, else
`root.find(rel_path)`. -/
def find_tag (root : Node) (rel_path : String) : Option Node :=
  if rel_path = "" then some root else root.find rel_path

/-- Python's `str.strip()`: drop whitespace from both ends. -/
def strip (s : String) : String :=
  ⟨((s.data.dropWhile Char.isWhitespace).reverse.dropWhile
    Char.isWhitespace).reverse⟩

/-- `AbstractParser.__get_text` under Python semantics: `tag.text` on a `None`
tag raises `AttributeError`; otherwise `None` if the node has no text, else
the text stripped of surrounding whitespace. -/
def get_text (tag : Option Node) : Except ParseError (Option String) :=
  match tag with
  | none => .error .attributeError
  | some t =>
    match t.text with
    | none => .ok none
    | some s => .ok (some (strip s))

/-- `AbstractParser.__get_attr`: `tag.attrib.get(attr, None)`. -/
def get_attr (tag : Node) (attr : String) : Option String :=
  match tag.attrib.lookup attr with
  | none => none
  | some v => some v

/-- `AbstractParser.__default_handler`: identity. -/
def default_handler (data_value : Value) : Value := data_value

/-- `AbstractParser.__default_from`: identity. -/
def default_from (data_value : Value) : Value := data_value

/-- `AbstractParser.__validate_path`: the no-op placeholder hook. -/
def validate_path (_data : String) (_data_path : Value) : Except ParseError Unit :=
  .ok ()

/-- The removal loop of `AbstractParser.__validate_args`: starting from a copy
of `cls.data`, remove each supplied key; a key absent from the remaining set
raises `OddArguments` naming that key. -/
def removeAll (d : List String) : List String → Except ParseError (List String)
  | [] => .ok d
  | k :: ks =>
    if k ∈ d then removeAll (d.erase k) ks
    else .error (.oddArguments (.unknown k))

/-- The final loop of `__validate_args`: run the (no-op) path-validation hook
on every supplied `(data, data_path)` pair. -/
def validatePaths : List (String × Value) → Except ParseError Unit
  | [] => .ok ()
  | kv :: rest => do
    validate_path kv.1 kv.2
    validatePaths rest

/-- `AbstractParser.__validate_args`: remove every supplied key from a copy of
`data` (unknown key → `OddArguments`), then fail with `OddArguments` on the
whole leftover set if nonempty, then run the no-op path-validation hook on
every supplied pair. -/
def validate_args (data : List String) (kwargs : List (String × Value)) :
    Except ParseError Unit := do
  let rem ← removeAll data (kwargs.map Prod.fst)
  if rem.isEmpty then pure () else throw (.oddArguments (.missing rem))
  validatePaths kwargs

/-- `cls.model_params` attribute access: `AttributeError` when the subclass
never declared it (the generic parser never defaults it). -/
def model_paramsC (s : Schema) : Except ParseError (List String) :=
  match s.declared_model_params with
  | none => .error .attributeError
  | some mp => .ok mp

/-- Lines 208–209 of `__init__`: `if not hasattr(cls, 'data'): cls.data =
cls.model_params.copy()`; the effective `data` set. -/
def dataC (s : Schema) : Except ParseError (List String) :=
  match s.declared_data with
  | some d => .ok d
  | none => model_paramsC s

/-- List-based set difference, embedding `set.difference`. -/
def setDiff (d remove : List String) : List String :=
  d.filter (fun x => ¬ (x ∈ remove))

/-- Lines 210–211 of `__init__`: the effective `internal_data` set,
`cls.data.difference(cls.external_data | cls.internal_attr_data)` unless
declared. -/
def internal_dataC (s : Schema) : Except ParseError (List String) :=
  match s.declared_internal_data with
  | some i => .ok i
  | none => do
      let d ← dataC s
      pure (setDiff d (s.external_data ++ s.internal_attr_data))

/-- The `external_data` branch of the extraction loop (line 219):
`instance_data[data] = kwargs[data]`, the supplied value verbatim; a missing
key is a `KeyError`. -/
def extractExternal (kwargs : List (String × Value)) (data : String) :
    Except ParseError (Option Value) :=
  match lookup kwargs data with
  | none => .error (.keyError data)
  | some v => .ok (some v)

/-- The `internal_attr_data` branch (lines 220–224): destructure the supplied
`(path, attr)` pair (ill-shaped values are a `TypeError`), find the tag and
read the attribute, `None` if the tag is `None`. -/
def extractInternalAttr (root : Node) (kwargs : List (String × Value))
    (data : String) : Except ParseError (Option Value) :=
  match lookup kwargs data with
  | none => .error (.keyError data)
  | some (.pair (.str path) (.str attr)) =>
    match find_tag root path with
    | none => .ok (some Value.vnone)
    | some tag =>
      match get_attr tag attr with
      | none => .ok (some Value.vnone)
      | some a => .ok (some (Value.str a))
  | some _ => .error .typeError

/-- The `internal_data` branch (lines 226–229): find the tag at the supplied
relative path and read its text, `None` if the tag is `None`. -/
def extractInternalText (root : Node) (kwargs : List (String × Value))
    (data : String) : Except ParseError (Option Value) :=
  match lookup kwargs data with
  | none => .error (.keyError data)
  | some (.str path) =>
    match find_tag root path with
    | none => .ok (some Value.vnone)
    | some tag =>
      match get_text (some tag) with
      | .error e => .error e
      | .ok none => .ok (some Value.vnone)
      | .ok (some s) => .ok (some (Value.str s))
  | some _ => .error .typeError

/-- One iteration of the extraction loop of `__init__` (lines 217–229) for one
name of `data`: three successive `if` tests (not `elif`; a later branch
overwrites an earlier assignment), each assigning `instance_data[data]`.  A
name in no branch leaves the dict entry unset (result `none`). -/
def extractField (root : Node) (external_data internal_attr_data internal_data :
    List String) (kwargs : List (String × Value)) (data : String) :
    Except ParseError (Option Value) :=
  (if data ∈ external_data then extractExternal kwargs data
    else .ok none) >>= fun c1 =>
  (if data ∈ internal_attr_data then extractInternalAttr root kwargs data
    else .ok c1) >>= fun c2 =>
  (if data ∈ internal_data then extractInternalText root kwargs data
    else .ok c2)

/-- The generic error-propagating loop the pipeline's `for` loops follow:
apply `f` to each element in order, aborting at the first exception. -/
def mapME {α β : Type} (f : α → Except ParseError β) :
    List α → Except ParseError (List β)
  | [] => .ok []
  | a :: as => do
    let b ← f a
    let bs ← mapME f as
    pure (b :: bs)

/-- The whole extraction loop: builds `instance_data`, keyed in the iteration
order of `data` (a name assigned by no branch stays absent from the dict). -/
def extractAll (root : Node) (dat external_data internal_attr_data
    internal_data : List String) (kwargs : List (String × Value)) :
    Except ParseError (List (String × Value)) := do
  let entries ← mapME (fun d => do
    let v? ← extractField root external_data internal_attr_data internal_data
      kwargs d
    pure (d, v?)) dat
  pure (entries.filterMap (fun e => e.2.map (fun v => (e.1, v))))

/-- One iteration of the handling loop (lines 233–236): the static method
`<name>_handler` if present, else the identity default handler; an exception
from the handler aborts the parse. -/
def handleField (methods : String → Option PyFunc) (name : String)
    (value : Value) : Except ParseError Value :=
  match methods (name ++ "_handler") with
  | none => .ok (default_handler value)
  | some f =>
    match f.fn [value] with
    | .ok v => .ok v
    | .error e => .error (.user e)

/-- The whole handling loop: `handled_data`, one entry per `instance_data`
entry, in order. -/
def handleAll (methods : String → Option PyFunc)
    (instance_data : List (String × Value)) :
    Except ParseError (List (String × Value)) :=
  mapME (fun nv => do
    let h ← handleField methods nv.1 nv.2
    pure (nv.1, h)) instance_data

/-- The dependency-resolution loop shared by a deriver and the whole-object
validator (lines 248–253 and 269–274): look each declared argument name up in
the available mapping; an absent name raises `OddFromFunc` naming the function
and the argument. -/
def resolveArgs (funcName : String) (available : List (String × Value))
    (args : List String) : Except ParseError (List Value) :=
  mapME (fun a =>
    match lookup available a with
    | none => .error (.oddFromFunc funcName a)
    | some v => .ok v) args

/-- One iteration of the derivation loop (lines 239–254): with no registered
`<param>_from`, the default deriver returns `handled_data[param]` (a raw
`KeyError` when absent); with one registered, resolve its argument names
against handled data and invoke it positionally once. -/
def deriveParam (methods : String → Option PyFunc)
    (handled_data : List (String × Value)) (param : String) :
    Except ParseError Value :=
  match methods (param ++ "_from") with
  | none =>
    match lookup handled_data param with
    | none => .error (.keyError param)
    | some v => .ok (default_from v)
  | some f => do
    let vals ← resolveArgs param handled_data f.args
    match f.fn vals with
    | .ok v => .ok v
    | .error e => .error (.user e)

/-- The whole derivation loop: `instance_model_params`, one entry per name of
`model_params`, in order. -/
def deriveAll (methods : String → Option PyFunc)
    (handled_data : List (String × Value)) (model_params : List String) :
    Except ParseError (List (String × Value)) :=
  mapME (fun p => do
    let v ← deriveParam methods handled_data p
    pure (p, v)) model_params

/-- One iteration of the per-parameter validation loop (lines 256–261): the
whole `try` body — the `validate_<param>` lookup, the parameter lookup and the
validator call — is guarded by `except KeyError: pass`, so a missing
validator, a missing parameter, and a `KeyError` raised by the validator
itself are all silently swallowed; any other exception propagates. -/
def validateParamStep (methods : String → Option PyFunc)
    (model_params_map : List (String × Value)) (param : String) :
    Except ParseError Unit :=
  match methods ("validate_" ++ param) with
  | none => .ok ()
  | some f =>
    match lookup model_params_map param with
    | none => .ok ()
    | some v =>
      match f.fn [v] with
      | .ok _ => .ok ()
      | .error (.keyError _) => .ok ()
      | .error e => .error (.user e)

/-- The whole per-parameter validation loop over `model_params`. -/
def validateParams (methods : String → Option PyFunc)
    (model_params_map : List (String × Value)) :
    List String → Except ParseError Unit
  | [] => .ok ()
  | p :: ps => do
    validateParamStep methods model_params_map p
    validateParams methods model_params_map ps

/-- The whole-object validation (lines 263–275): if a static method `validate`
exists, resolve its argument names against the final model-parameter mapping
(`OddFromFunc` on an absent name) and invoke it positionally once. -/
def validateWhole (methods : String → Option PyFunc)
    (model_params_map : List (String × Value)) : Except ParseError Unit :=
  match methods "validate" with
  | none => .ok ()
  | some f => do
    let vals ← resolveArgs "validate" model_params_map f.args
    match f.fn vals with
    | .ok _ => .ok ()
    | .error e => .error (.user e)

/-- `AbstractParser.__init__` as a pure pipeline: resolve the effective
`data` / `internal_data` sets, validate the argument set, extract raw data,
handle it, resolve `model_params`, derive every parameter, run per-parameter
validators then the whole-object validator, and return the final
model-parameter mapping (`instance_model_params`) from which the model is
constructed. -/
def parse (s : Schema) (root : Node) (kwargs : List (String × Value)) :
    Except ParseError (List (String × Value)) := do
  let dat ← dataC s
  let internal ← internal_dataC s
  validate_args dat kwargs
  let instance_data ← extractAll root dat s.external_data s.internal_attr_data
    internal kwargs
  let handled_data ← handleAll s.methods instance_data
  let mp ← model_paramsC s
  let params ← deriveAll s.methods handled_data mp
  validateParams s.methods params mp
  validateWhole s.methods params
  pure params

/-- Line 277, `self.model = self.Model(**self.instance_model_params)`: the
external model constructor, applied only to a successful pipeline's final
mapping. -/
def parseModel {M : Type} (build : List (String × Value) → M) (s : Schema)
    (root : Node) (kwargs : List (String × Value)) : Except ParseError M :=
  (parse s root kwargs).map build

/-- The class state after the lazy attribute initialization of the first
`__init__` run (lines 208–211): `cls.data` and `cls.internal_data` now exist
with their computed values; every later parse of the same class sees this
mutated declaration.  When the computation itself raises (no `data` and no
`model_params`), no attribute is set. -/
def afterFirstInit (s : Schema) : Schema :=
  match dataC s with
  | .error _ => s
  | .ok d =>
    match internal_dataC s with
    | .error _ => { s with declared_data := some d }
    | .ok i =>
      { s with declared_data := some d, declared_internal_data := some i }

/-- A field of a Django model's `_meta.fields`: its attribute name and whether
it is a `ForeignKey`. -/
structure DjField where
  attname : String
  isForeignKey : Bool

/-- Python's `s[:-3]`: drop the final three characters. -/
def dropLast3 (s : String) : String :=
  ⟨s.data.dropLast.dropLast.dropLast⟩

/-- `AbstractDjangoParser.__init__` field-name computation: the attribute
name, foreign keys with their trailing 3-character `"_id"` suffix removed. -/
def djangoFieldName (f : DjField) : String :=
  if f.isForeignKey then dropLast3 f.attname else f.attname

/-- `AbstractDjangoParser.exclude_model_params` default. -/
def exclude_model_params_default : List String := ["id"]

/-- The `model_params` set `AbstractDjangoParser.__init__` computes when the
subclass declared none: the model's field names minus the exclusion set. -/
def django_default_model_params (fields : List DjField)
    (exclude : List String) : List String :=
  setDiff (fields.map djangoFieldName) exclude

/-- The effective `model_params` of the Django variant: as declared, else
derived from the model's own fields minus the exclusion set. -/
def django_model_paramsC (s : Schema) (fields : List DjField)
    (exclude : List String) : List String :=
  match s.declared_model_params with
  | some mp => mp
  | none => django_default_model_params fields exclude

/-! ### Generic lemmas about the `Except` pipeline combinators -/

theorem except_bind_ok {ε α β : Type} {x : Except ε α} {f : α → Except ε β}
    {b : β} (h : x >>= f = .ok b) : ∃ a, x = .ok a ∧ f a = .ok b := by
  cases x with
  | error e => simp [Bind.bind, Except.bind] at h
  | ok a => exact ⟨a, rfl, by simpa [Bind.bind, Except.bind] using h⟩

theorem except_bind_error {ε α β : Type} {x : Except ε α}
    {f : α → Except ε β} {e : ε} (h : x >>= f = .error e) :
    x = .error e ∨ ∃ a, x = .ok a ∧ f a = .error e := by
  cases x with
  | error e' =>
    left
    simpa [Bind.bind, Except.bind] using h
  | ok a =>
    right
    exact ⟨a, rfl, by simpa [Bind.bind, Except.bind] using h⟩

theorem except_bind_ok_of {ε α β : Type} {x : Except ε α}
    {f : α → Except ε β} {a : α} (hx : x = .ok a) :
    x >>= f = f a := by
  subst hx
  rfl

theorem except_bind_error_of {ε α β : Type} {x : Except ε α}
    {f : α → Except ε β} {e : ε} (hx : x = .error e) :
    x >>= f = .error e := by
  subst hx
  rfl

theorem mapME_error {α β : Type} {f : α → Except ParseError β} {l : List α}
    {e : ParseError} (h : mapME f l = .error e) : ∃ a ∈ l, f a = .error e := by
  induction l with
  | nil => simp [mapME] at h
  | cons a as ih =>
    rw [mapME] at h
    rcases except_bind_error h with h1 | ⟨b, hb, h2⟩
    · exact ⟨a, by simp, h1⟩
    · rcases except_bind_error h2 with h3 | ⟨bs, hbs, h4⟩
      · obtain ⟨a', ha', hfa'⟩ := ih h3
        exact ⟨a', by simp [ha'], hfa'⟩
      · simp [pure, Except.pure] at h4

theorem mapME_ok_forall {α β : Type} {f : α → Except ParseError β} {l : List α}
    {bs : List β} (h : mapME f l = .ok bs) : ∀ a ∈ l, ∃ b, f a = .ok b := by
  induction l generalizing bs with
  | nil => simp
  | cons a as ih =>
    rw [mapME] at h
    rcases except_bind_ok h with ⟨b, hb, h2⟩
    rcases except_bind_ok h2 with ⟨rest, hrest, _⟩
    intro x hx
    rw [List.mem_cons] at hx
    rcases hx with rfl | hx
    · exact ⟨b, hb⟩
    · exact ih hrest x hx

theorem mapME_eq_map {α β : Type} {f : α → Except ParseError β} {g : α → β}
    {l : List α} (h : ∀ a ∈ l, f a = .ok (g a)) : mapME f l = .ok (l.map g) := by
  induction l with
  | nil => rfl
  | cons a as ih =>
    rw [mapME, except_bind_ok_of (h a (by simp)),
      except_bind_ok_of (ih fun x hx => h x (by simp [hx]))]
    rfl

/-! ### The argument-validation loop -/

theorem removeAll_spec {d ks : List String} (hd : d.Nodup) (hk : ks.Nodup) :
    (∃ r, removeAll d ks = .ok r ∧ ∀ x, x ∈ r ↔ (x ∈ d ∧ x ∉ ks)) ∨
    (∃ k, removeAll d ks = .error (.oddArguments (.unknown k)) ∧ k ∈ ks ∧
      k ∉ d) := by
  induction ks generalizing d with
  | nil =>
    left
    exact ⟨d, rfl, by simp⟩
  | cons k ks ih =>
    by_cases hkd : k ∈ d
    · have herase : (d.erase k).Nodup := hd.erase k
      rcases ih herase (List.Nodup.of_cons hk) with ⟨r, hr, hmem⟩ | ⟨k', hk', hk'ks, hk'd⟩
      · left
        refine ⟨r, by rw [removeAll, if_pos hkd]; exact hr, fun x => ?_⟩
        rw [hmem x, hd.mem_erase_iff]
        constructor
        · rintro ⟨⟨hxk, hxd⟩, hxks⟩
          exact ⟨hxd, by simp [hxk, hxks]⟩
        · rintro ⟨hxd, hxnot⟩
          simp only [List.mem_cons, not_or] at hxnot
          exact ⟨⟨hxnot.1, hxd⟩, hxnot.2⟩
      · right
        refine ⟨k', by rw [removeAll, if_pos hkd]; exact hk', by simp [hk'ks], ?_⟩
        intro hmem
        have hne : k' ≠ k := by
          rintro rfl
          exact (List.nodup_cons.mp hk).1 hk'ks
        exact hk'd (hd.mem_erase_iff.mpr ⟨hne, hmem⟩)
    · right
      exact ⟨k, by rw [removeAll, if_neg hkd], by simp, hkd⟩

theorem validatePaths_ok (kwargs : List (String × Value)) :
    validatePaths kwargs = .ok () := by
  induction kwargs with
  | nil => rfl
  | cons kv rest ih => rw [validatePaths, validate_path, except_bind_ok_of rfl, ih]

theorem removeAll_ok_subset {d ks : List String} {r : List String}
    (h : removeAll d ks = .ok r) : ∀ k ∈ ks, k ∈ d := by
  induction ks generalizing d with
  | nil => simp
  | cons k ks ih =>
    rw [removeAll] at h
    by_cases hkd : k ∈ d
    · rw [if_pos hkd] at h
      intro x hx
      rw [List.mem_cons] at hx
      rcases hx with rfl | hx
      · exact hkd
      · exact List.mem_of_mem_erase (ih h x hx)
    · rw [if_neg hkd] at h
      exact absurd h (by simp)

theorem validate_args_ok_iff {d : List String} {kw : List (String × Value)}
    (hd : d.Nodup) (hk : (kw.map Prod.fst).Nodup) :
    validate_args d kw = .ok () ↔
      (∀ x, x ∈ kw.map Prod.fst ↔ x ∈ d) := by
  rcases removeAll_spec hd hk with ⟨r, hr, hmem⟩ | ⟨k, hk', hkks, hkd⟩
  · rw [validate_args, except_bind_ok_of hr]
    constructor
    · intro h x
      by_cases hremp : r.isEmpty
      · refine ⟨fun hx => removeAll_ok_subset hr x hx, fun hx => ?_⟩
        by_contra hxk
        have : x ∈ r := (hmem x).mpr ⟨hx, hxk⟩
        rw [List.isEmpty_iff] at hremp
        simp [hremp] at this
      · rw [if_neg hremp] at h
        exact absurd h (by simp [Bind.bind, Except.bind, throw, throwThe,
          MonadExceptOf.throw])
    · intro h
      have hremp : r = [] := by
        rw [List.eq_nil_iff_forall_not_mem]
        intro x hx
        obtain ⟨hxd, hxk⟩ := (hmem x).mp hx
        exact hxk ((h x).mpr hxd)
      rw [hremp]
      simp [Bind.bind, Except.bind, pure, Except.pure, validatePaths_ok]
  · rw [validate_args, except_bind_error_of hk']
    constructor
    · intro h
      exact absurd h (by simp)
    · intro h
      exact absurd ((h k).mp hkks) hkd

theorem validate_args_unknown {d : List String} {kw : List (String × Value)}
    {k : String} (hd : d.Nodup) (hk : (kw.map Prod.fst).Nodup)
    (h : validate_args d kw = .error (.oddArguments (.unknown k))) :
    k ∈ kw.map Prod.fst ∧ k ∉ d := by
  rcases removeAll_spec hd hk with ⟨r, hr, _⟩ | ⟨k', hk', hkks, hkd⟩
  · rw [validate_args, except_bind_ok_of hr] at h
    by_cases hremp : r.isEmpty
    · rw [if_pos hremp] at h
      simp [Bind.bind, Except.bind, pure, Except.pure, validatePaths_ok] at h
    · rw [if_neg hremp] at h
      simp [Bind.bind, Except.bind, throw, throwThe, MonadExceptOf.throw] at h
  · rw [validate_args, except_bind_error_of hk'] at h
    have hinj : k' = k := by
      simp at h
      exact h
    exact hinj ▸ ⟨hkks, hkd⟩

theorem validate_args_missing {d : List String} {kw : List (String × Value)}
    {rem : List String} (hd : d.Nodup) (hk : (kw.map Prod.fst).Nodup)
    (h : validate_args d kw = .error (.oddArguments (.missing rem))) :
    rem ≠ [] ∧ ∀ x, x ∈ rem ↔ (x ∈ d ∧ x ∉ kw.map Prod.fst) := by
  rcases removeAll_spec hd hk with ⟨r, hr, hmem⟩ | ⟨k', hk', _, _⟩
  · rw [validate_args, except_bind_ok_of hr] at h
    by_cases hremp : r.isEmpty
    · rw [if_pos hremp] at h
      simp [Bind.bind, Except.bind, pure, Except.pure, validatePaths_ok] at h
    · rw [if_neg hremp] at h
      have hre : r = rem := by
        simp [Bind.bind, Except.bind, throw, throwThe, MonadExceptOf.throw] at h
        exact h
      subst hre
      exact ⟨fun hnil => hremp (by simp [hnil]), hmem⟩
  · rw [validate_args, except_bind_error_of hk'] at h
    simp at h

theorem internal_dataC_ok_of_dataC {s : Schema} {d : List String}
    (h : dataC s = .ok d) : ∃ i, internal_dataC s = .ok i := by
  rw [internal_dataC]
  cases hdecl : s.declared_internal_data with
  | some i => exact ⟨i, rfl⟩
  | none =>
    exact ⟨setDiff d (s.external_data ++ s.internal_attr_data),
      by rw [except_bind_ok_of h]; rfl⟩

theorem parse_early_error {s : Schema} {d : List String} {e : ParseError}
    {kw : List (String × Value)} (hdecl : s.declared_data = some d)
    (h : validate_args d kw = .error e) : ∀ root, parse s root kw = .error e := by
  intro root
  have hdat : dataC s = .ok d := by rw [dataC, hdecl]
  obtain ⟨i, hi⟩ := internal_dataC_ok_of_dataC hdat
  rw [parse, except_bind_ok_of hdat, except_bind_ok_of hi,
    except_bind_error_of h]

/-- C1: argument validation accepts iff the supplied key set equals the
declared `data` set exactly; a supplied key outside `data` yields the
unknown-argument `OddArguments` error naming that key; a missing remainder
yields the `OddArguments` error carrying the whole nonempty leftover set; and
a validation error aborts the parse identically for every root, i.e. before
any extraction from the tree. -/
theorem validate_args_exact_key_set (d : List String)
    (kw : List (String × Value)) (hd : d.Nodup)
    (hk : (kw.map Prod.fst).Nodup) :
    (validate_args d kw = .ok () ↔ (∀ x, x ∈ kw.map Prod.fst ↔ x ∈ d))
    ∧ (∀ k, validate_args d kw = .error (.oddArguments (.unknown k)) →
        k ∈ kw.map Prod.fst ∧ k ∉ d)
    ∧ (∀ rem, validate_args d kw = .error (.oddArguments (.missing rem)) →
        rem ≠ [] ∧ ∀ x, x ∈ rem ↔ (x ∈ d ∧ x ∉ kw.map Prod.fst))
    ∧ (∀ e s, s.declared_data = some d →
        validate_args d kw = .error e →
        ∀ root, parse s root kw = .error e) :=
  ⟨validate_args_ok_iff hd hk,
   fun _ h => validate_args_unknown hd hk h,
   fun _ h => validate_args_missing hd hk h,
   fun _ _ hdecl h => parse_early_error hdecl h⟩

/-- Witness for C1 at a concrete schema: supplying exactly the declared keys
is accepted. -/
theorem validate_args_exact_key_set_witness :
    validate_args ["a", "b"] [("b", Value.str "p"), ("a", Value.str "q")] =
      .ok () := by
  have h := validate_args_exact_key_set ["a", "b"]
    [("b", Value.str "p"), ("a", Value.str "q")] (by decide) (by decide)
  refine h.1.mpr ?_
  intro x
  simp only [List.map_cons, List.map_nil, List.mem_cons, List.not_mem_nil]
  tauto

/-! ### Dependency resolution for derivers and the whole-object validator -/

theorem resolveArgs_error {fn : String} {m : List (String × Value)}
    {args : List String} {e : ParseError}
    (h : resolveArgs fn m args = .error e) :
    ∃ a ∈ args, lookup m a = none ∧ e = .oddFromFunc fn a := by
  obtain ⟨a, ha, hfa⟩ := mapME_error h
  refine ⟨a, ha, ?_⟩
  cases hl : lookup m a with
  | none =>
    rw [hl] at hfa
    simp at hfa
    exact ⟨rfl, hfa.symm⟩
  | some v =>
    rw [hl] at hfa
    simp at hfa

theorem resolveArgs_missing {fn : String} {m : List (String × Value)}
    {args : List String} (h : ∃ a ∈ args, lookup m a = none) :
    ∃ a, resolveArgs fn m args = .error (.oddFromFunc fn a) ∧ a ∈ args ∧
      lookup m a = none := by
  induction args with
  | nil => simp at h
  | cons a as ih =>
    cases hl : lookup m a with
    | none =>
      refine ⟨a, ?_, by simp, hl⟩
      rw [resolveArgs, mapME, except_bind_error_of (by rw [hl])]
    | some v =>
      obtain ⟨a', ha', hla'⟩ := h
      rw [List.mem_cons] at ha'
      rcases ha' with rfl | ha'
      · rw [hl] at hla'
        exact absurd hla' (by simp)
      · obtain ⟨a'', ha''err, ha''mem, ha''l⟩ := ih ⟨a', ha', hla'⟩
        refine ⟨a'', ?_, by simp [ha''mem], ha''l⟩
        rw [resolveArgs] at ha''err ⊢
        rw [mapME, except_bind_ok_of (by rw [hl]),
          except_bind_error_of ha''err]

theorem resolveArgs_ok_of (fn : String) {m : List (String × Value)}
    {args : List String} {g : String → Value}
    (h : ∀ a ∈ args, lookup m a = some (g a)) :
    resolveArgs fn m args = .ok (args.map g) := by
  rw [resolveArgs]
  exact mapME_eq_map (fun a ha => by rw [h a ha])

theorem deriveParam_some {methods : String → Option PyFunc}
    {handled : List (String × Value)} {param : String} {f : PyFunc}
    (hf : methods (param ++ "_from") = some f) :
    deriveParam methods handled param =
      (resolveArgs param handled f.args >>= fun vals =>
        match f.fn vals with
        | .ok v => .ok v
        | .error e => .error (.user e)) := by
  simp only [deriveParam, hf]

theorem validateWhole_some {methods : String → Option PyFunc}
    {params : List (String × Value)} {fv : PyFunc}
    (hfv : methods "validate" = some fv) :
    validateWhole methods params =
      (resolveArgs "validate" params fv.args >>= fun vals =>
        match fv.fn vals with
        | .ok _ => .ok ()
        | .error e => .error (.user e)) := by
  simp only [validateWhole, hfv]

/-- C2: for a registered deriver `<param>_from` (and likewise for the
registered whole-object validator `validate`), dependency resolution fails
with an `OddFromFunc` error exactly when some declared dependency name is
absent from the data available to the function (handled data for a deriver,
the final model-parameter mapping for the whole-object validator); otherwise
the function is invoked exactly once, positionally, on the dependency values
in the declared order, and its outcome is the stage's outcome. -/
theorem deriver_dependency_resolution (methods : String → Option PyFunc)
    (handled params : List (String × Value)) (param : String) (f fv : PyFunc) :
    (methods (param ++ "_from") = some f →
      ((∃ a, deriveParam methods handled param =
          .error (.oddFromFunc param a)) ↔ ∃ a ∈ f.args, lookup handled a = none)
      ∧ ∀ g : String → Value, (∀ a ∈ f.args, lookup handled a = some (g a)) →
          (∀ v, f.fn (f.args.map g) = .ok v →
            deriveParam methods handled param = .ok v)
          ∧ (∀ e, f.fn (f.args.map g) = .error e →
            deriveParam methods handled param = .error (.user e)))
    ∧ (methods "validate" = some fv →
      ((∃ a, validateWhole methods params =
          .error (.oddFromFunc "validate" a)) ↔
        ∃ a ∈ fv.args, lookup params a = none)
      ∧ ∀ g : String → Value, (∀ a ∈ fv.args, lookup params a = some (g a)) →
          (∀ w, fv.fn (fv.args.map g) = .ok w →
            validateWhole methods params = .ok ())
          ∧ (∀ e, fv.fn (fv.args.map g) = .error e →
            validateWhole methods params = .error (.user e))) := by
  constructor
  · intro hf
    constructor
    · constructor
      · rintro ⟨a, ha⟩
        rw [deriveParam_some hf] at ha
        cases hres : resolveArgs param handled f.args with
        | error e =>
          rw [except_bind_error_of hres] at ha
          obtain ⟨a', ha'mem, ha'l, he⟩ := resolveArgs_error hres
          have heq : e = ParseError.oddFromFunc param a := by
            simpa using ha
          subst he
          exact ⟨a', ha'mem, ha'l⟩
        | ok vals =>
          rw [except_bind_ok_of hres] at ha
          cases hfn : f.fn vals with
          | ok v => rw [hfn] at ha; simp at ha
          | error e => rw [hfn] at ha; simp at ha
      · intro hmiss
        obtain ⟨a, haerr, hamem, hal⟩ := resolveArgs_missing hmiss
        refine ⟨a, ?_⟩
        rw [deriveParam_some hf, except_bind_error_of haerr]
    · intro g hg
      have hres := resolveArgs_ok_of param hg
      constructor
      · intro v hv
        rw [deriveParam_some hf, except_bind_ok_of hres, hv]
      · intro e he
        rw [deriveParam_some hf, except_bind_ok_of hres, he]
  · intro hfv
    constructor
    · constructor
      · rintro ⟨a, ha⟩
        rw [validateWhole_some hfv] at ha
        cases hres : resolveArgs "validate" params fv.args with
        | error e =>
          rw [except_bind_error_of hres] at ha
          obtain ⟨a', ha'mem, ha'l, he⟩ := resolveArgs_error hres
          have heq : e = ParseError.oddFromFunc "validate" a := by
            simpa using ha
          subst he
          exact ⟨a', ha'mem, ha'l⟩
        | ok vals =>
          rw [except_bind_ok_of hres] at ha
          cases hfn : fv.fn vals with
          | ok v => rw [hfn] at ha; simp at ha
          | error e => rw [hfn] at ha; simp at ha
      · intro hmiss
        obtain ⟨a, haerr, hamem, hal⟩ := resolveArgs_missing hmiss
        refine ⟨a, ?_⟩
        rw [validateWhole_some hfv, except_bind_error_of haerr]
    · intro g hg
      have hres := resolveArgs_ok_of "validate" hg
      constructor
      · intro w hw
        rw [validateWhole_some hfv, except_bind_ok_of hres, hw]
      · intro e he
        rw [validateWhole_some hfv, except_bind_ok_of hres, he]

/-- Witness for C2 at a concrete deriver: a dependency absent from handled
data yields `OddFromFunc`, and with the dependency present the deriver's value
is the parameter's value. -/
theorem deriver_dependency_resolution_witness :
    let f : PyFunc := ⟨["x"], fun vs => .ok (Value.pair (Value.str "r")
      (vs.headD Value.vnone))⟩
    let methods : String → Option PyFunc :=
      fun n => if n = "p_from" then some f else none
    (∃ a, deriveParam methods [] "p" = .error (.oddFromFunc "p" a))
    ∧ deriveParam methods [("x", Value.str "v")] "p" =
        .ok (Value.pair (Value.str "r") (Value.str "v")) := by
  intro f methods
  constructor
  · exact ((deriver_dependency_resolution methods [] [] "p" f f).1
      (by simp [methods])).1.mpr ⟨"x", by simp [f], by simp [lookup]⟩
  · exact (((deriver_dependency_resolution methods [("x", Value.str "v")] []
      "p" f f).1 (by simp [methods])).2 (fun _ => Value.str "v")
      (by simp [f, lookup])).1 _ (by simp [f])

/-! ### Decomposition of a successful parse into its stages -/

theorem deriveParam_none {methods : String → Option PyFunc}
    {handled : List (String × Value)} {param : String}
    (hf : methods (param ++ "_from") = none) :
    deriveParam methods handled param =
      (match lookup handled param with
       | none => .error (.keyError param)
       | some v => .ok v) := by
  simp only [deriveParam, hf, default_from]

theorem parse_ok_stages {s : Schema} {root : Node}
    {kw : List (String × Value)} {ps : List (String × Value)}
    (h : parse s root kw = .ok ps) :
    ∃ dat internal inst handled mp,
      dataC s = .ok dat ∧ internal_dataC s = .ok internal ∧
      validate_args dat kw = .ok () ∧
      extractAll root dat s.external_data s.internal_attr_data internal kw =
        .ok inst ∧
      handleAll s.methods inst = .ok handled ∧
      model_paramsC s = .ok mp ∧
      deriveAll s.methods handled mp = .ok ps ∧
      validateParams s.methods ps mp = .ok () ∧
      validateWhole s.methods ps = .ok () := by
  rw [parse] at h
  rcases except_bind_ok h with ⟨dat, hdat, h⟩
  rcases except_bind_ok h with ⟨internal, hint, h⟩
  rcases except_bind_ok h with ⟨u1, hval, h⟩
  rcases except_bind_ok h with ⟨inst, hinst, h⟩
  rcases except_bind_ok h with ⟨handled, hhand, h⟩
  rcases except_bind_ok h with ⟨mp, hmp, h⟩
  rcases except_bind_ok h with ⟨params, hder, h⟩
  rcases except_bind_ok h with ⟨u2, hvp, h⟩
  rcases except_bind_ok h with ⟨u3, hvw, h⟩
  have hps : params = ps := by
    simpa [pure, Except.pure] using h
  subst hps
  exact ⟨dat, internal, inst, handled, mp, hdat, hint, by cases u1; exact hval,
    hinst, hhand, hmp, hder, by cases u2; exact hvp, by cases u3; exact hvw⟩

theorem parse_stages_ok {s : Schema} {root : Node}
    {kw : List (String × Value)} {dat internal : List String}
    {inst handled ps : List (String × Value)} {mp : List String}
    (hdat : dataC s = .ok dat) (hint : internal_dataC s = .ok internal)
    (hval : validate_args dat kw = .ok ())
    (hinst : extractAll root dat s.external_data s.internal_attr_data internal
      kw = .ok inst)
    (hhand : handleAll s.methods inst = .ok handled)
    (hmp : model_paramsC s = .ok mp)
    (hder : deriveAll s.methods handled mp = .ok ps)
    (hvp : validateParams s.methods ps mp = .ok ())
    (hvw : validateWhole s.methods ps = .ok ()) :
    parse s root kw = .ok ps := by
  rw [parse, except_bind_ok_of hdat, except_bind_ok_of hint,
    except_bind_ok_of hval, except_bind_ok_of hinst, except_bind_ok_of hhand,
    except_bind_ok_of hmp, except_bind_ok_of hder, except_bind_ok_of hvp,
    except_bind_ok_of hvw]
  rfl

/-- C3: for a model parameter with no registered `<param>_from` deriver, the
derived value is the identically named handled-data entry unchanged; when no
such entry exists the default derivation raises the missing-key configuration
error, the parse cannot succeed, and no model is produced. -/
theorem default_deriver_identity (methods : String → Option PyFunc)
    (handled : List (String × Value)) (param : String)
    (hno : methods (param ++ "_from") = none) :
    (∀ v, lookup handled param = some v →
      deriveParam methods handled param = .ok v)
    ∧ (lookup handled param = none →
      deriveParam methods handled param = .error (.keyError param))
    ∧ (∀ (s : Schema) root kw dat internal inst mp,
        s.methods = methods →
        dataC s = .ok dat → internal_dataC s = .ok internal →
        validate_args dat kw = .ok () →
        extractAll root dat s.external_data s.internal_attr_data internal kw =
          .ok inst →
        handleAll methods inst = .ok handled →
        model_paramsC s = .ok mp → param ∈ mp →
        lookup handled param = none →
        (∀ ps, parse s root kw ≠ .ok ps) ∧
        ∀ (M : Type) (build : List (String × Value) → M) m,
          parseModel build s root kw ≠ .ok m) := by
  refine ⟨fun v hv => by rw [deriveParam_none hno, hv],
    fun hnone => by rw [deriveParam_none hno, hnone], ?_⟩
  intro s root kw dat internal inst mp hm hdat hint hval hinst hhand hmp
    hparam hnone
  have hfail : ∀ ps, parse s root kw ≠ .ok ps := by
    intro ps hok
    obtain ⟨dat', internal', inst', handled', mp', hdat', hint', hval', hinst',
      hhand', hmp', hder', _, _⟩ := parse_ok_stages hok
    have hdeq : dat' = dat := by rw [hdat] at hdat'; exact (Except.ok.inj hdat').symm
    subst hdeq
    have hieq : internal' = internal := by
      rw [hint] at hint'; exact (Except.ok.inj hint').symm
    subst hieq
    have hinsteq : inst' = inst := by
      rw [hinst] at hinst'; exact (Except.ok.inj hinst').symm
    subst hinsteq
    rw [hm] at hhand'
    have hheq : handled' = handled := by
      rw [hhand] at hhand'; exact (Except.ok.inj hhand').symm
    subst hheq
    have hmpeq : mp' = mp := by rw [hmp] at hmp'; exact (Except.ok.inj hmp').symm
    subst hmpeq
    rw [hm, deriveAll] at hder'
    obtain ⟨b, hb⟩ := mapME_ok_forall hder' param hparam
    rcases except_bind_ok hb with ⟨v, hv, _⟩
    rw [deriveParam_none hno, hnone] at hv
    exact absurd hv (by simp)
  refine ⟨hfail, fun M build m hok => ?_⟩
  rw [parseModel] at hok
  cases hp : parse s root kw with
  | error e => rw [hp] at hok; simp [Except.map] at hok
  | ok ps => exact hfail ps hp

/-- Concrete inputs for witnesses: a childless node with no text and no
attributes. -/
def leafNode : Node := .mk none [] (fun _ => none)

/-- Concrete schema for the C3 witness: one internal field `a`, one model
parameter `b` with no deriver and no same-named field. -/
def schemaMissingDefault : Schema :=
  { declared_data := some ["a"], declared_internal_data := none,
    internal_attr_data := [], external_data := [],
    declared_model_params := some ["b"], methods := fun _ => none }

/-- Witness for C3: with no `b_from` and no `b` entry, the default derivation
raises the missing-key error and the parse of a concrete document cannot
succeed. -/
theorem default_deriver_identity_witness :
    deriveParam (fun _ => none) [("a", Value.vnone)] "b" =
      .error (.keyError "b")
    ∧ ∀ ps, parse schemaMissingDefault leafNode [("a", Value.str "")] ≠
        .ok ps := by
  have h := default_deriver_identity (fun _ => none) [("a", Value.vnone)] "b"
    rfl
  refine ⟨h.2.1 rfl, fun ps => ?_⟩
  exact (h.2.2 schemaMissingDefault leafNode [("a", Value.str "")] ["a"] ["a"]
    [("a", Value.vnone)] ["b"] rfl rfl rfl rfl rfl rfl rfl (by simp) rfl).1 ps

/-! ### Extraction of absent nodes and attributes -/

theorem extractField_internal_absent {root : Node}
    {ext attr internal : List String} {kw : List (String × Value)}
    {d p : String} (hext : d ∉ ext) (hattr : d ∉ attr) (hint : d ∈ internal)
    (hkw : lookup kw d = some (.str p)) (hfind : find_tag root p = none) :
    extractField root ext attr internal kw d = .ok (some Value.vnone) := by
  simp only [extractField, if_neg hext, if_neg hattr, if_pos hint,
    extractInternalText, hkw, hfind, Bind.bind, Except.bind]

theorem extractField_attr_absent_node {root : Node}
    {ext attr internal : List String} {kw : List (String × Value)}
    {d p a : String} (hext : d ∉ ext) (hattr : d ∈ attr)
    (hint : d ∉ internal) (hkw : lookup kw d = some (.pair (.str p) (.str a)))
    (hfind : find_tag root p = none) :
    extractField root ext attr internal kw d = .ok (some Value.vnone) := by
  simp only [extractField, if_neg hext, if_pos hattr, if_neg hint,
    extractInternalAttr, hkw, hfind, Bind.bind, Except.bind]

theorem extractField_attr_missing_attr {root t : Node}
    {ext attr internal : List String} {kw : List (String × Value)}
    {d p a : String} (hext : d ∉ ext) (hattr : d ∈ attr)
    (hint : d ∉ internal) (hkw : lookup kw d = some (.pair (.str p) (.str a)))
    (hfind : find_tag root p = some t) (hget : get_attr t a = none) :
    extractField root ext attr internal kw d = .ok (some Value.vnone) := by
  simp only [extractField, if_neg hext, if_pos hattr, if_neg hint,
    extractInternalAttr, hkw, hfind, hget, Bind.bind, Except.bind]

theorem handleField_default {methods : String → Option PyFunc} {d : String}
    (h : methods (d ++ "_handler") = none) (v : Value) :
    handleField methods d v = .ok v := by
  simp only [handleField, h, default_handler]

/-- C4: extraction never raises on absence — an `Internal` or
`InternalAttribute` field whose path resolves to no node, and an
`InternalAttribute` field whose node lacks the named attribute, all record the
raw value `None`; and with no custom handler registered the identity handler
passes this `None` (like any value) unchanged into handled data. -/
theorem absent_node_extracts_none (root t : Node)
    (ext attr internal : List String) (kw : List (String × Value))
    (methods : String → Option PyFunc) (d p a : String) :
    ((d ∉ ext → d ∉ attr → d ∈ internal → lookup kw d = some (.str p) →
      find_tag root p = none →
      extractField root ext attr internal kw d = .ok (some Value.vnone)))
    ∧ (d ∉ ext → d ∈ attr → d ∉ internal →
      lookup kw d = some (.pair (.str p) (.str a)) →
      find_tag root p = none →
      extractField root ext attr internal kw d = .ok (some Value.vnone))
    ∧ (d ∉ ext → d ∈ attr → d ∉ internal →
      lookup kw d = some (.pair (.str p) (.str a)) →
      find_tag root p = some t → get_attr t a = none →
      extractField root ext attr internal kw d = .ok (some Value.vnone))
    ∧ (methods (d ++ "_handler") = none →
      ∀ v, handleField methods d v = .ok v) :=
  ⟨fun h1 h2 h3 h4 h5 => extractField_internal_absent h1 h2 h3 h4 h5,
   fun h1 h2 h3 h4 h5 => extractField_attr_absent_node h1 h2 h3 h4 h5,
   fun h1 h2 h3 h4 h5 h6 => extractField_attr_missing_attr h1 h2 h3 h4 h5 h6,
   fun h v => handleField_default h v⟩

/-- Witness for C4 at concrete inputs: an internal field whose path matches no
node extracts `None`, and the identity handler passes it through. -/
theorem absent_node_extracts_none_witness :
    extractField leafNode [] [] ["a"] [("a", Value.str "x")] "a" =
      .ok (some Value.vnone)
    ∧ handleField (fun _ => none) "a" Value.vnone = .ok Value.vnone := by
  have h := absent_node_extracts_none leafNode leafNode [] [] ["a"]
    [("a", Value.str "x")] (fun _ => none) "a" "x" "y"
  exact ⟨h.1 (by simp) (by simp) (by simp) rfl rfl, h.2.2.2 rfl Value.vnone⟩

/-! ### No partial model on failure -/

/-- C5: the external model constructor is applied only to the final mapping of
a parse in which every stage — argument validation, extraction, handling,
derivation, per-parameter validation and whole-object validation — succeeded;
a parse that fails at any stage propagates that failure and exposes no
constructed model. -/
theorem no_model_on_failure {M : Type} (build : List (String × Value) → M)
    (s : Schema) (root : Node) (kw : List (String × Value)) :
    (∀ e, parse s root kw = .error e →
      parseModel build s root kw = .error e)
    ∧ (∀ m, parseModel build s root kw = .ok m →
      ∃ ps, parse s root kw = .ok ps ∧ m = build ps ∧
        ∃ dat internal inst handled mp,
          dataC s = .ok dat ∧ internal_dataC s = .ok internal ∧
          validate_args dat kw = .ok () ∧
          extractAll root dat s.external_data s.internal_attr_data internal
            kw = .ok inst ∧
          handleAll s.methods inst = .ok handled ∧
          model_paramsC s = .ok mp ∧
          deriveAll s.methods handled mp = .ok ps ∧
          validateParams s.methods ps mp = .ok () ∧
          validateWhole s.methods ps = .ok ()) := by
  constructor
  · intro e he
    rw [parseModel, he]
    rfl
  · intro m hm
    rw [parseModel] at hm
    cases hp : parse s root kw with
    | error e => rw [hp] at hm; simp [Except.map] at hm
    | ok ps =>
      rw [hp] at hm
      have hbuild : build ps = m := by simpa [Except.map] using hm
      exact ⟨ps, rfl, hbuild.symm, parse_ok_stages hp⟩

/-- Witness for C5: a parse failing in derivation yields an error, never a
model. -/
theorem no_model_on_failure_witness :
    parseModel (fun ps => ps) schemaMissingDefault leafNode
      [("a", Value.str "")] = .error (.keyError "b") :=
  (no_model_on_failure (fun ps => ps) schemaMissingDefault leafNode
    [("a", Value.str "")]).1 (.keyError "b") rfl

/-! ### The lazy class-attribute initialization is observationally inert -/

theorem afterFirstInit_of_ok {s : Schema} {d i : List String}
    (hd : dataC s = .ok d) (hi : internal_dataC s = .ok i) :
    afterFirstInit s =
      { s with declared_data := some d, declared_internal_data := some i } := by
  rw [afterFirstInit, hd, hi]

theorem afterFirstInit_of_error {s : Schema} {e : ParseError}
    (hd : dataC s = .error e) : afterFirstInit s = s := by
  rw [afterFirstInit, hd]

theorem dataC_afterFirstInit (s : Schema) :
    dataC (afterFirstInit s) = dataC s := by
  cases hd : dataC s with
  | error e => rw [afterFirstInit_of_error hd, hd]
  | ok d =>
    obtain ⟨i, hi⟩ := internal_dataC_ok_of_dataC hd
    rw [afterFirstInit_of_ok hd hi]
    rfl

theorem internal_dataC_afterFirstInit (s : Schema) :
    internal_dataC (afterFirstInit s) = internal_dataC s := by
  cases hd : dataC s with
  | error e => rw [afterFirstInit_of_error hd]
  | ok d =>
    obtain ⟨i, hi⟩ := internal_dataC_ok_of_dataC hd
    rw [afterFirstInit_of_ok hd hi, hi]
    rfl

theorem fields_afterFirstInit (s : Schema) :
    (afterFirstInit s).external_data = s.external_data
    ∧ (afterFirstInit s).internal_attr_data = s.internal_attr_data
    ∧ (afterFirstInit s).declared_model_params = s.declared_model_params
    ∧ (afterFirstInit s).methods = s.methods := by
  cases hd : dataC s with
  | error e => rw [afterFirstInit_of_error hd]; exact ⟨rfl, rfl, rfl, rfl⟩
  | ok d =>
    obtain ⟨i, hi⟩ := internal_dataC_ok_of_dataC hd
    rw [afterFirstInit_of_ok hd hi]
    exact ⟨rfl, rfl, rfl, rfl⟩

theorem model_paramsC_afterFirstInit (s : Schema) :
    model_paramsC (afterFirstInit s) = model_paramsC s := by
  rw [model_paramsC, model_paramsC, (fields_afterFirstInit s).2.2.1]

theorem parse_afterFirstInit (s : Schema) (root : Node)
    (kw : List (String × Value)) :
    parse (afterFirstInit s) root kw = parse s root kw := by
  obtain ⟨hext, hattr, _, hmeth⟩ := fields_afterFirstInit s
  rw [parse, parse, dataC_afterFirstInit, internal_dataC_afterFirstInit, hext,
    hattr, hmeth, model_paramsC_afterFirstInit]

/-- C6: the lazy first-use initialization of `cls.data` / `cls.internal_data`
is the only parse-time write to shared state, it is idempotent, it is the
identity on a fully declared schema, and it does not change the result of any
parse — hence two parse invocations on the same schema, root and kwargs (the
second seeing the initialized class) produce structurally identical outcomes;
the embedding's `parse` is a pure function of `(schema, root, kwargs)`, and
only read primitives (`find`, `.text`, `.attrib.get`) touch the tree. -/
theorem parse_deterministic_no_mutation (s : Schema) (root : Node)
    (kw : List (String × Value)) :
    parse (afterFirstInit s) root kw = parse s root kw
    ∧ afterFirstInit (afterFirstInit s) = afterFirstInit s
    ∧ (∀ d i, s.declared_data = some d → s.declared_internal_data = some i →
        afterFirstInit s = s) := by
  refine ⟨parse_afterFirstInit s root kw, ?_, ?_⟩
  · cases hd : dataC s with
    | error e => rw [afterFirstInit_of_error hd, afterFirstInit_of_error hd]
    | ok d =>
      obtain ⟨i, hi⟩ := internal_dataC_ok_of_dataC hd
      have hd' : dataC (afterFirstInit s) = .ok d := by
        rw [dataC_afterFirstInit, hd]
      have hi' : internal_dataC (afterFirstInit s) = .ok i := by
        rw [internal_dataC_afterFirstInit, hi]
      rw [afterFirstInit_of_ok hd' hi', afterFirstInit_of_ok hd hi]
  · intro d i hdd hdi
    have hd : dataC s = .ok d := by rw [dataC, hdd]
    have hi : internal_dataC s = .ok i := by rw [internal_dataC, hdi]
    rw [afterFirstInit_of_ok hd hi, ← hdd, ← hdi]

/-- Concrete fully declared schema for the C6 witness. -/
def schemaDeclared : Schema :=
  { declared_data := some ["a"], declared_internal_data := some ["a"],
    internal_attr_data := [], external_data := [],
    declared_model_params := some ["a"], methods := fun _ => none }

/-- Witness for C6: on a fully declared schema the lazy initialization is the
identity and reparsing is unchanged. -/
theorem parse_deterministic_no_mutation_witness :
    afterFirstInit schemaDeclared = schemaDeclared
    ∧ parse (afterFirstInit schemaDeclared) leafNode [("a", Value.str "")] =
        parse schemaDeclared leafNode [("a", Value.str "")] := by
  have h := parse_deterministic_no_mutation schemaDeclared leafNode
    [("a", Value.str "")]
  exact ⟨h.2.2 ["a"] ["a"] rfl rfl, h.1⟩

/-! ### Defaulting of `data` and `model_params` -/

/-- Concrete schema declaring `data` but not `model_params`. -/
def schemaNoModelParams : Schema :=
  { declared_data := some ["a"], declared_internal_data := none,
    internal_attr_data := [], external_data := [],
    declared_model_params := none, methods := fun _ => none }

/-- Counterexample to C7: in the generic parser a schema declaring
`data = {"a"}` but no `model_params` does not get `model_params` defaulted to
a copy of `data`; the `model_params` attribute access raises `AttributeError`
and the parse of a concrete document aborts with it. -/
theorem model_params_not_defaulted_cex :
    dataC schemaNoModelParams = .ok ["a"]
    ∧ model_paramsC schemaNoModelParams = .error .attributeError
    ∧ model_paramsC schemaNoModelParams ≠ .ok ["a"]
    ∧ parse schemaNoModelParams leafNode [("a", Value.str "")] =
        .error .attributeError := by
  refine ⟨rfl, rfl, ?_, rfl⟩
  intro h
  simp [model_paramsC, schemaNoModelParams] at h

/-- C7 as amended: the generic defaulting runs the other way round — a schema
with no declared `data` gets `data` defaulted to a copy of `model_params`,
while a missing `model_params` is an `AttributeError` in the generic parser;
the model-introspecting (Django) variant defaults a missing `model_params` to
the external model's field names, with the trailing 3-character foreign-key
suffix stripped from relationship fields, minus the exclusion set, whose
default is `{"id"}`. -/
theorem model_params_defaulting_amended :
    (∀ (s : Schema) mp, s.declared_data = none →
      s.declared_model_params = some mp → dataC s = .ok mp)
    ∧ (∀ s : Schema, s.declared_model_params = none →
      model_paramsC s = .error .attributeError)
    ∧ (∀ (s : Schema) fields exclude, s.declared_model_params = none →
      django_model_paramsC s fields exclude =
        django_default_model_params fields exclude)
    ∧ (∀ fields, django_default_model_params fields
        exclude_model_params_default =
        setDiff (fields.map djangoFieldName) ["id"])
    ∧ (∀ f : DjField, f.isForeignKey = true →
      djangoFieldName f = dropLast3 f.attname) := by
  refine ⟨fun s mp hd hmp => ?_, fun s hmp => ?_, fun s fields exclude hmp => ?_,
    fun fields => rfl, fun f hf => ?_⟩
  · rw [dataC, hd, model_paramsC, hmp]
  · rw [model_paramsC, hmp]
  · rw [django_model_paramsC, hmp]
  · rw [djangoFieldName, if_pos hf]

/-- Concrete schema declaring `model_params` but not `data`. -/
def schemaNoData : Schema :=
  { declared_data := none, declared_internal_data := none,
    internal_attr_data := [], external_data := [],
    declared_model_params := some ["x"], methods := fun _ => none }

/-- Witness for the amended C7: `data` defaults to `model_params`, and a
Django foreign-key field name loses its `_id` suffix. -/
theorem model_params_defaulting_amended_witness :
    dataC schemaNoData = .ok ["x"]
    ∧ djangoFieldName ⟨"owner_id", true⟩ = "owner"
    ∧ django_model_paramsC schemaNoModelParams
        [⟨"id", false⟩, ⟨"owner_id", true⟩] exclude_model_params_default =
        ["owner"] := by
  have h := model_params_defaulting_amended
  refine ⟨h.1 schemaNoData ["x"] rfl rfl, ?_, ?_⟩
  · rw [h.2.2.2.2 ⟨"owner_id", true⟩ rfl]
    decide
  · rw [h.2.2.1 schemaNoModelParams [⟨"id", false⟩, ⟨"owner_id", true⟩]
      exclude_model_params_default rfl]
    decide

/-! ### The text-reading primitive and a `None` node -/

/-- Counterexample to C8: the text-reading primitive applied to a `None` node
does not return `None` — the `tag.text` attribute access raises
`AttributeError` (the extraction call sites guard with `if tag is not None`
precisely so that the primitive is never handed `None`). -/
theorem read_text_none_node_cex :
    get_text none = .error .attributeError
    ∧ get_text none ≠ .ok none := by
  refine ⟨rfl, ?_⟩
  intro h
  simp [get_text] at h

/-- C8 as amended: for an actual node, `__get_text` returns the text content
trimmed of surrounding whitespace, and `None` when the node has no text; on a
`None` node the primitive itself raises `AttributeError`, and it is the
extraction call site that records `None` for an absent node without invoking
the primitive. -/
theorem read_text_amended :
    (∀ t : Node, get_text (some t) = .ok (t.text.map strip))
    ∧ get_text none = .error .attributeError
    ∧ (∀ (root : Node) ext attr internal kw d p, d ∉ ext → d ∉ attr →
      d ∈ internal → lookup kw d = some (.str p) → find_tag root p = none →
      extractField root ext attr internal kw d = .ok (some Value.vnone)) := by
  refine ⟨fun t => ?_, rfl,
    fun root ext attr internal kw d p h1 h2 h3 h4 h5 =>
      extractField_internal_absent h1 h2 h3 h4 h5⟩
  cases h : t.text <;> simp [get_text, h]

/-- Witness for the amended C8 at concrete nodes: whitespace is trimmed, a
textless node reads as `None`, an absent node extracts `None`. -/
theorem read_text_amended_witness :
    get_text (some (Node.mk (some " hi ") [] (fun _ => none))) = .ok (some "hi")
    ∧ get_text (some leafNode) = .ok none
    ∧ extractField leafNode [] [] ["a"] [("a", Value.str "q")] "a" =
        .ok (some Value.vnone) := by
  have h := read_text_amended
  refine ⟨?_, ?_, h.2.2 leafNode [] [] ["a"] [("a", Value.str "q")] "a" "q"
    (by simp) (by simp) (by simp) rfl rfl⟩
  · rw [h.1]
    rfl
  · rw [h.1]
    rfl

/-! ### `KeyError` swallowed by the per-parameter validation loop -/

/-- C9: the `try`/`except KeyError: pass` of the per-parameter validation loop
also guards the validator call itself, so a registered `validate_<param>` that
raises `KeyError` is silently swallowed and the loop continues as if the
validator had passed, while any non-`KeyError` exception (such as
`ValidationFail`) propagates and aborts the parse. -/
theorem validator_keyerror_swallowed (methods : String → Option PyFunc)
    (m : List (String × Value)) (param : String) (f : PyFunc) (v : Value)
    (hf : methods ("validate_" ++ param) = some f)
    (hv : lookup m param = some v) :
    (∀ k, f.fn [v] = .error (.keyError k) →
      validateParamStep methods m param = .ok ())
    ∧ (∀ k ps, f.fn [v] = .error (.keyError k) →
      validateParams methods m (param :: ps) = validateParams methods m ps)
    ∧ (∀ e, f.fn [v] = .error e → (∀ k, e ≠ .keyError k) →
      validateParamStep methods m param = .error (.user e)) := by
  refine ⟨fun k hk => ?_, fun k ps hk => ?_, fun e he hne => ?_⟩
  · simp only [validateParamStep, hf, hv, hk]
  · rw [validateParams,
      except_bind_ok_of (show validateParamStep methods m param = .ok () by
        simp only [validateParamStep, hf, hv, hk])]
  · cases e with
    | keyError k => exact absurd rfl (hne k)
    | validationFail msg => simp only [validateParamStep, hf, hv, he]
    | other msg => simp only [validateParamStep, hf, hv, he]

/-- Witness for C9 at a concrete validator raising `KeyError`: the step
passes; a `ValidationFail` from the same shape of validator propagates. -/
theorem validator_keyerror_swallowed_witness :
    validateParamStep
      (fun n => if n = "validate_p" then
        some ⟨["p"], fun _ => .error (.keyError "boom")⟩ else none)
      [("p", Value.vnone)] "p" = .ok ()
    ∧ validateParamStep
      (fun n => if n = "validate_p" then
        some ⟨["p"], fun _ => .error (.validationFail "bad")⟩ else none)
      [("p", Value.vnone)] "p" =
        .error (.user (.validationFail "bad")) := by
  constructor
  · exact (validator_keyerror_swallowed
      (fun n => if n = "validate_p" then
        some ⟨["p"], fun _ => .error (.keyError "boom")⟩ else none)
      [("p", Value.vnone)] "p" ⟨["p"], fun _ => .error (.keyError "boom")⟩
      Value.vnone (by simp) rfl).1 "boom" rfl
  · exact (validator_keyerror_swallowed
      (fun n => if n = "validate_p" then
        some ⟨["p"], fun _ => .error (.validationFail "bad")⟩ else none)
      [("p", Value.vnone)] "p" ⟨["p"], fun _ => .error (.validationFail "bad")⟩
      Value.vnone (by simp) rfl).2.2 (.validationFail "bad") rfl
      (fun k => by simp)

/-! ### `OddPath` is declared but never raised -/

theorem removeAll_no_oddPath {d ks : List String} :
    removeAll d ks ≠ .error .oddPath := by
  induction ks generalizing d with
  | nil => simp [removeAll]
  | cons k ks ih =>
    rw [removeAll]
    by_cases hk : k ∈ d
    · rw [if_pos hk]
      exact ih
    · rw [if_neg hk]
      simp

theorem validate_args_no_oddPath {d : List String}
    {kw : List (String × Value)} : validate_args d kw ≠ .error .oddPath := by
  intro h
  rw [validate_args] at h
  rcases except_bind_error h with h1 | ⟨r, hr, h2⟩
  · exact removeAll_no_oddPath h1
  · by_cases hremp : r.isEmpty
    · rw [if_pos hremp] at h2
      simp [Bind.bind, Except.bind, pure, Except.pure, validatePaths_ok] at h2
    · rw [if_neg hremp] at h2
      simp [Bind.bind, Except.bind, throw, throwThe, MonadExceptOf.throw] at h2

theorem model_paramsC_no_oddPath (s : Schema) :
    model_paramsC s ≠ .error .oddPath := by
  rw [model_paramsC]
  cases s.declared_model_params <;> simp

theorem dataC_no_oddPath (s : Schema) : dataC s ≠ .error .oddPath := by
  rw [dataC]
  cases s.declared_data with
  | none => exact model_paramsC_no_oddPath s
  | some d => simp

theorem internal_dataC_no_oddPath (s : Schema) :
    internal_dataC s ≠ .error .oddPath := by
  rw [internal_dataC]
  cases s.declared_internal_data with
  | some i => simp
  | none =>
    intro h
    rcases except_bind_error h with h1 | ⟨d, hd, h2⟩
    · exact dataC_no_oddPath s h1
    · simp [pure, Except.pure] at h2

theorem extractExternal_no_oddPath {kw : List (String × Value)} {d : String} :
    extractExternal kw d ≠ .error .oddPath := by
  rw [extractExternal]
  cases lookup kw d <;> simp

theorem extractInternalAttr_no_oddPath {root : Node}
    {kw : List (String × Value)} {d : String} :
    extractInternalAttr root kw d ≠ .error .oddPath := by
  rw [extractInternalAttr]
  cases hl : lookup kw d with
  | none => simp
  | some v =>
    rcases v with _ | s | ⟨a1, a2⟩ | n
    · simp
    · simp
    · rcases a1 with _ | p | ⟨b1, b2⟩ | n1 <;> try simp
      rcases a2 with _ | q | ⟨c1, c2⟩ | n2 <;> try simp
      cases find_tag root p with
      | none => simp
      | some tag => cases hg : get_attr tag q <;> simp [hg]
    · simp

theorem extractInternalText_no_oddPath {root : Node}
    {kw : List (String × Value)} {d : String} :
    extractInternalText root kw d ≠ .error .oddPath := by
  rw [extractInternalText]
  cases hl : lookup kw d with
  | none => simp
  | some v =>
    rcases v with _ | p | ⟨a1, a2⟩ | n <;> try simp
    cases find_tag root p with
    | none => simp
    | some tag =>
      rcases htag : tag with ⟨t, attrs, fd⟩
      cases t <;> simp [get_text, Node.text]

theorem extractField_no_oddPath {root : Node} {ext attr internal : List String}
    {kw : List (String × Value)} {d : String} :
    extractField root ext attr internal kw d ≠ .error .oddPath := by
  intro h
  rw [extractField] at h
  rcases except_bind_error h with h1 | ⟨c1, hc1, h⟩
  · by_cases he : d ∈ ext
    · rw [if_pos he] at h1
      exact extractExternal_no_oddPath h1
    · rw [if_neg he] at h1
      simp at h1
  · rcases except_bind_error h with h2 | ⟨c2, hc2, h⟩
    · by_cases ha : d ∈ attr
      · rw [if_pos ha] at h2
        exact extractInternalAttr_no_oddPath h2
      · rw [if_neg ha] at h2
        simp at h2
    · by_cases hi : d ∈ internal
      · rw [if_pos hi] at h
        exact extractInternalText_no_oddPath h
      · rw [if_neg hi] at h
        simp at h


theorem mapME_no_oddPath {α β : Type} {f : α → Except ParseError β}
    {l : List α} (hf : ∀ a ∈ l, f a ≠ .error .oddPath) :
    mapME f l ≠ .error .oddPath := by
  intro h
  obtain ⟨a, ha, he⟩ := mapME_error h
  exact hf a ha he

theorem extractAll_no_oddPath {root : Node}
    {dat ext attr internal : List String} {kw : List (String × Value)} :
    extractAll root dat ext attr internal kw ≠ .error .oddPath := by
  intro h
  rw [extractAll] at h
  rcases except_bind_error h with h1 | ⟨entries, hent, h2⟩
  · refine mapME_no_oddPath (fun a ha hfa => ?_) h1
    rcases except_bind_error hfa with hfa1 | ⟨v, hv, hfa2⟩
    · exact extractField_no_oddPath hfa1
    · simp [pure, Except.pure] at hfa2
  · simp [pure, Except.pure] at h2

theorem handleField_no_oddPath {methods : String → Option PyFunc}
    {name : String} {v : Value} :
    handleField methods name v ≠ .error .oddPath := by
  rw [handleField]
  cases methods (name ++ "_handler") with
  | none => simp
  | some f => cases hfn : f.fn [v] <;> simp [hfn]

theorem handleAll_no_oddPath {methods : String → Option PyFunc}
    {inst : List (String × Value)} :
    handleAll methods inst ≠ .error .oddPath := by
  intro h
  rw [handleAll] at h
  refine mapME_no_oddPath (fun nv hnv hfa => ?_) h
  rcases except_bind_error hfa with hfa1 | ⟨v, hv, hfa2⟩
  · exact handleField_no_oddPath hfa1
  · simp [pure, Except.pure] at hfa2

theorem deriveParam_no_oddPath {methods : String → Option PyFunc}
    {handled : List (String × Value)} {param : String} :
    deriveParam methods handled param ≠ .error .oddPath := by
  cases hm : methods (param ++ "_from") with
  | none =>
    rw [deriveParam_none hm]
    cases lookup handled param <;> simp
  | some f =>
    rw [deriveParam_some hm]
    intro h
    rcases except_bind_error h with h1 | ⟨vals, hvals, h2⟩
    · obtain ⟨a, _, _, he⟩ := resolveArgs_error h1
      simp at he
    · cases hfn : f.fn vals <;> rw [hfn] at h2 <;> simp at h2

theorem deriveAll_no_oddPath {methods : String → Option PyFunc}
    {handled : List (String × Value)} {mp : List String} :
    deriveAll methods handled mp ≠ .error .oddPath := by
  intro h
  rw [deriveAll] at h
  refine mapME_no_oddPath (fun p hp hfa => ?_) h
  rcases except_bind_error hfa with hfa1 | ⟨v, hv, hfa2⟩
  · exact deriveParam_no_oddPath hfa1
  · simp [pure, Except.pure] at hfa2

theorem validateParamStep_no_oddPath {methods : String → Option PyFunc}
    {m : List (String × Value)} {param : String} :
    validateParamStep methods m param ≠ .error .oddPath := by
  rw [validateParamStep]
  cases methods ("validate_" ++ param) with
  | none => simp
  | some f =>
    cases lookup m param with
    | none => simp
    | some v =>
      cases hfn : f.fn [v] with
      | ok w => simp [hfn]
      | error e => cases e <;> simp [hfn]

theorem validateParams_no_oddPath {methods : String → Option PyFunc}
    {m : List (String × Value)} {mp : List String} :
    validateParams methods m mp ≠ .error .oddPath := by
  induction mp with
  | nil => simp [validateParams]
  | cons p ps ih =>
    intro h
    rw [validateParams] at h
    rcases except_bind_error h with h1 | ⟨u, hu, h2⟩
    · exact validateParamStep_no_oddPath h1
    · exact ih h2

theorem validateWhole_no_oddPath {methods : String → Option PyFunc}
    {m : List (String × Value)} : validateWhole methods m ≠ .error .oddPath := by
  cases hm : methods "validate" with
  | none => simp [validateWhole, hm]
  | some f =>
    rw [validateWhole_some hm]
    intro h
    rcases except_bind_error h with h1 | ⟨vals, hvals, h2⟩
    · obtain ⟨a, _, _, he⟩ := resolveArgs_error h1
      simp at he
    · cases hfn : f.fn vals <;> rw [hfn] at h2 <;> simp at h2

theorem parse_no_oddPath (s : Schema) (root : Node)
    (kw : List (String × Value)) : parse s root kw ≠ .error .oddPath := by
  intro h
  rw [parse] at h
  rcases except_bind_error h with h1 | ⟨dat, hdat, h⟩
  · exact dataC_no_oddPath s h1
  rcases except_bind_error h with h1 | ⟨internal, hint, h⟩
  · exact internal_dataC_no_oddPath s h1
  rcases except_bind_error h with h1 | ⟨u1, hval, h⟩
  · exact validate_args_no_oddPath h1
  rcases except_bind_error h with h1 | ⟨inst, hinst, h⟩
  · exact extractAll_no_oddPath h1
  rcases except_bind_error h with h1 | ⟨handled, hhand, h⟩
  · exact handleAll_no_oddPath h1
  rcases except_bind_error h with h1 | ⟨mp, hmp, h⟩
  · exact model_paramsC_no_oddPath s h1
  rcases except_bind_error h with h1 | ⟨params, hder, h⟩
  · exact deriveAll_no_oddPath h1
  rcases except_bind_error h with h1 | ⟨u2, hvp, h⟩
  · exact validateParams_no_oddPath h1
  rcases except_bind_error h with h1 | ⟨u3, hvw, h⟩
  · exact validateWhole_no_oddPath h1
  simp [pure, Except.pure] at h

/-- C10: the path-validation hook `__validate_path` is a no-op that accepts
every `(data, data_path)` pair, and consequently no parse, on any schema, root
and kwargs, ever fails with the `OddPath` error kind. -/
theorem odd_path_never_raised (s : Schema) (root : Node)
    (kw : List (String × Value)) :
    (∀ d p, validate_path d p = .ok ())
    ∧ parse s root kw ≠ .error .oddPath :=
  ⟨fun _ _ => rfl, parse_no_oddPath s root kw⟩

/-- Witness for C10 at a concrete schema, root and kwargs. -/
theorem odd_path_never_raised_witness :
    validate_path "a" (Value.str "x") = .ok ()
    ∧ parse schemaDeclared leafNode [("a", Value.str "")] ≠
        .error .oddPath :=
  ⟨(odd_path_never_raised schemaDeclared leafNode
      [("a", Value.str "")]).1 "a" (Value.str "x"),
   (odd_path_never_raised schemaDeclared leafNode [("a", Value.str "")]).2⟩

end XmlParser
